import Mathlib

/-!
Verification of the knowbit backend core (src/index.js): a shallow embedding
of the JSON-like runtime values the code manipulates, the `extractJson`
helper, the `normalizeCourse` routine with its `dummyCourse` fallback
template, and the `POST /generate-course` handler including its fallback
orchestration.  Fallible evaluation steps (JavaScript property access on
`undefined`/`null`, `JSON.parse` of malformed text) are modelled with
`Except Unit`; a `.error ()` result corresponds to a thrown exception.

Modelling conventions:
* JavaScript numbers are modelled at integer precision plus an explicit
  `nan` sentinel (`JsNum`).  Fractional, exponent and hexadecimal literal
  forms of string-to-number coercion are outside the model and coerce to
  `nan`; no claim in this development depends on them.
* The whitespace class is the ASCII portion of JavaScript's `\s`.
-/

/-- JavaScript number at integer precision, with the invalid-number
sentinel `NaN` made explicit. -/
inductive JsNum where
  | nan
  | int (i : Int)
deriving Repr, DecidableEq

/-- A JavaScript/JSON runtime value as the code sees it: the result of
`JSON.parse`, a fallback-template literal, or `undefined`. -/
inductive JsValue where
  | undefined
  | null
  | bool (b : Bool)
  | num (n : JsNum)
  | str (s : String)
  | arr (elems : List JsValue)
  | obj (fields : List (String × JsValue))
deriving Repr

/-- ASCII portion of JavaScript's whitespace class `\s`. -/
def isJsWs (c : Char) : Bool :=
  c = ' ' || c = '\t' || c = '\n' || c = '\r' || c = '\x0b' || c = '\x0c'

/-- Strip trailing JavaScript whitespace from a character list. -/
def dropTrailingWs (l : List Char) : List Char :=
  (l.reverse.dropWhile isJsWs).reverse

/-- JavaScript `String.prototype.trim` on a character list. -/
def jsTrimL (l : List Char) : List Char :=
  dropTrailingWs (l.dropWhile isJsWs)

/-- JavaScript's number-to-string conversion (`String(n)`), at the
integer-or-NaN precision of `JsNum`. -/
def jsNumToString : JsNum → String
  | .nan => "NaN"
  | .int i => toString i

mutual

/-- JavaScript's `String(v)` coercion. -/
def jsToString : JsValue → String
  | .undefined => "undefined"
  | .null => "null"
  | .bool true => "true"
  | .bool false => "false"
  | .num n => jsNumToString n
  | .str s => s
  | .arr xs => String.intercalate "," (jsToStringArrayElems xs)
  | .obj _ => "[object Object]"

/-- Element conversion used by `Array.prototype.join` (hence by
`String(array)`): `null` and `undefined` elements become the empty
string, every other element is converted with `String`. -/
def jsToStringArrayElems : List JsValue → List String
  | [] => []
  | .undefined :: rest => "" :: jsToStringArrayElems rest
  | .null :: rest => "" :: jsToStringArrayElems rest
  | x :: rest => jsToString x :: jsToStringArrayElems rest

end

/-- Accumulator pass over decimal digits; fails on the first non-digit. -/
def digitsToNatAux : Nat → List Char → Option Nat
  | acc, [] => some acc
  | acc, c :: rest =>
      if c.isDigit then digitsToNatAux (acc * 10 + (c.toNat - 48)) rest else none

/-- Interpret a non-empty all-digit character list as a natural number. -/
def digitsToNat? : List Char → Option Nat
  | [] => none
  | l => digitsToNatAux 0 l

/-- JavaScript string-to-number coercion (`Number(string)`), at the
integer-or-NaN precision of `JsNum`: surrounding whitespace is trimmed,
the empty remainder is `0`, an optionally signed run of digits is that
integer, and anything else is `NaN`. -/
def strToNumber (s : String) : JsNum :=
  match jsTrimL s.data with
  | [] => .int 0
  | '-' :: ds => match digitsToNat? ds with
      | some n => .int (-(n : Int))
      | none => .nan
  | '+' :: ds => match digitsToNat? ds with
      | some n => .int (n : Int)
      | none => .nan
  | ds => match digitsToNat? ds with
      | some n => .int (n : Int)
      | none => .nan

/-- JavaScript's `Number(v)` coercion.  Arrays and plain objects go
through their string conversion, as `ToPrimitive` prescribes. -/
def jsToNumber : JsValue → JsNum
  | .undefined => .nan
  | .null => .int 0
  | .bool true => .int 1
  | .bool false => .int 0
  | .num n => n
  | .str s => strToNumber s
  | .arr xs => strToNumber (jsToString (.arr xs))
  | .obj fs => strToNumber (jsToString (.obj fs))

/-- JavaScript truthiness of a value. -/
def jsTruthy : JsValue → Bool
  | .undefined => false
  | .null => false
  | .bool b => b
  | .num .nan => false
  | .num (.int i) => i != 0
  | .str s => s != ""
  | .arr _ => true
  | .obj _ => true

/-- Whether `typeof v === "string"`. -/
def isStringV : JsValue → Bool
  | .str _ => true
  | _ => false

/-- Embeds the helper `safe = (v, d) => (v === undefined || v === null ? d : v)`
from `normalizeCourse`. -/
def safe (v d : JsValue) : JsValue :=
  match v with
  | .undefined => d
  | .null => d
  | _ => v

/-- Property lookup in an ordered field list, with JavaScript's
last-assignment-wins semantics for duplicate keys; a missing key reads as
`undefined`. -/
def lookupField (fs : List (String × JsValue)) (k : String) : JsValue :=
  fs.foldl (fun acc p => if p.1 = k then p.2 else acc) .undefined

/-- JavaScript property access `v.k`: throws (`.error`) on `undefined` and
`null`, reads the field list of an object, and yields `undefined` on every
other primitive or array (none of the property names used by the code is a
string/array built-in). -/
def getField (v : JsValue) (k : String) : Except Unit JsValue :=
  match v with
  | .undefined => .error ()
  | .null => .error ()
  | .obj fs => .ok (lookupField fs k)
  | _ => .ok .undefined

/-- Output schema for one day of the course, mirroring the object built by
`normalizeCourse` for each element of `days`. -/
structure DaySpec where
  day : JsNum
  title : String
  goals : List String
  concepts : List String
  exercises : List String
deriving Repr, DecidableEq

/-- Output schema for one learning resource, mirroring the object built by
`normalizeCourse` for each element of `resources`. -/
structure ResourceSpec where
  title : String
  type : String
  url : String
  description : String
deriving Repr, DecidableEq

/-- The full course output contract of the backend. -/
structure Course where
  title : String
  duration : String
  summary : String
  totalLessons : JsNum
  estimatedTime : String
  days : List DaySpec
  resources : List ResourceSpec
deriving Repr, DecidableEq

/-- The fallback dummy course literal from src/index.js, with its
`\x7b\x7bTOPIC\x7d\x7d` placeholder still in place. -/
def dummyCourse : Course :=
  { title := "Master \x7b\x7bTOPIC\x7d\x7d"
    duration := "5 Days"
    summary := "A comprehensive mini-course designed to take you from beginner to confident in \x7b\x7bTOPIC\x7d\x7d. This structured learning path combines theory with practical exercises."
    totalLessons := .int 15
    estimatedTime := "2-3 hours/day"
    days := [
      { day := .int 1
        title := "Foundation & Setup"
        goals := ["Understand the basics", "Set up environment", "First exercise"]
        concepts := ["Core terminology", "Why it matters", "Basic principles"]
        exercises := ["Install tools", "Terminology quiz", "Hello world task"] },
      { day := .int 2
        title := "Building Fundamentals"
        goals := ["Master essentials", "Practice techniques", "Build confidence"]
        concepts := ["Key tools", "Best practices", "Common patterns"]
        exercises := ["Guided tasks", "CLI practice", "Mini project"] },
      { day := .int 3
        title := "Intermediate Concepts"
        goals := ["Explore advanced features", "Connect concepts", "Apply skills"]
        concepts := ["Advanced methods", "Integration", "Optimization"]
        exercises := ["Problem set", "Integration task", "Perf tuning"] },
      { day := .int 4
        title := "Practical Application"
        goals := ["Build a full project", "Test & validate", "Debug issues"]
        concepts := ["Project planning", "Testing", "Debugging"]
        exercises := ["Build project", "Write tests", "Fix bugs"] },
      { day := .int 5
        title := "Mastery & Next Steps"
        goals := ["Solidify knowledge", "Explore advanced topics", "Roadmap"]
        concepts := ["Advanced architectures", "Industry practices", "Trends"]
        exercises := ["Capstone", "Peer review", "Learning plan"] }]
    resources := [
      { title := "Complete Guide - YouTube"
        type := "video"
        url := "https://youtube.com"
        description := "Comprehensive video series" },
      { title := "Ultimate Handbook"
        type := "pdf"
        url := "https://example.com"
        description := "Step-by-step reference guide" },
      { title := "Community Blog"
        type := "article"
        url := "https://medium.com"
        description := "Insights, tutorials, and discussions" }] }

/-- A `DaySpec` as the JSON value it denotes, with the field order of the
source literals. -/
def dayToJs (d : DaySpec) : JsValue :=
  .obj [("day", .num d.day), ("title", .str d.title),
        ("goals", .arr (d.goals.map .str)),
        ("concepts", .arr (d.concepts.map .str)),
        ("exercises", .arr (d.exercises.map .str))]

/-- A `ResourceSpec` as the JSON value it denotes. -/
def resourceToJs (r : ResourceSpec) : JsValue :=
  .obj [("title", .str r.title), ("type", .str r.type),
        ("url", .str r.url), ("description", .str r.description)]

/-- A `Course` as the JSON value it denotes, with the field order of the
source literals and of the object returned by `normalizeCourse`. -/
def courseToJs (c : Course) : JsValue :=
  .obj [("title", .str c.title), ("duration", .str c.duration),
        ("summary", .str c.summary), ("totalLessons", .num c.totalLessons),
        ("estimatedTime", .str c.estimatedTime),
        ("days", .arr (c.days.map dayToJs)),
        ("resources", .arr (c.resources.map resourceToJs))]

/-- `Array.isArray(v) ? v : []`: the element list of an array value,
empty for every non-array. -/
def arrayElems (v : JsValue) : List JsValue :=
  match v with
  | .arr xs => xs
  | _ => []

/-- `Array.isArray(v) ? v.map(String) : []`, the coercion `normalizeCourse`
applies to `goals`, `concepts` and `exercises`.  Note that `map(String)`
renders `null` elements as `"null"`, unlike array join. -/
def asStringArray (v : JsValue) : List String :=
  match v with
  | .arr xs => xs.map jsToString
  | _ => []

/-- The per-element mapping of `normalizeCourse` over `days`: position `i`
is 0-based, property access on a `null`/`undefined` element throws. -/
def normDay (i : Nat) (d : JsValue) : Except Unit DaySpec := do
  let dayV ← getField d "day"
  let titleV ← getField d "title"
  let goalsV ← getField d "goals"
  let conceptsV ← getField d "concepts"
  let exercisesV ← getField d "exercises"
  pure
    { day := jsToNumber (safe dayV (.num (.int ((i : Int) + 1))))
      title := jsToString (safe titleV (.str ("Day " ++ toString (i + 1))))
      goals := asStringArray goalsV
      concepts := asStringArray conceptsV
      exercises := asStringArray exercisesV }

/-- `days.map((d, i) => ...)` with the running 0-based index. -/
def normDaysGo (i : Nat) : List JsValue → Except Unit (List DaySpec)
  | [] => .ok []
  | d :: rest => do
      let spec ← normDay i d
      let others ← normDaysGo (i + 1) rest
      pure (spec :: others)

/-- The resource `type` coercion:
`["video", "article", "pdf"].includes(r.type) ? r.type : "article"`. -/
def resType (v : JsValue) : String :=
  match v with
  | .str s => if ["video", "article", "pdf"].contains s then s else "article"
  | _ => "article"

/-- The per-element mapping of `normalizeCourse` over `resources`. -/
def normResource (r : JsValue) : Except Unit ResourceSpec := do
  let titleV ← getField r "title"
  let typeV ← getField r "type"
  let urlV ← getField r "url"
  let descV ← getField r "description"
  pure
    { title := jsToString (safe titleV (.str "Resource"))
      type := resType typeV
      url := jsToString (safe urlV (.str "https://example.com"))
      description := jsToString (safe descV (.str "")) }

/-- `resources.map(r => ...)`. -/
def normResourcesGo : List JsValue → Except Unit (List ResourceSpec)
  | [] => .ok []
  | r :: rest => do
      let spec ← normResource r
      let others ← normResourcesGo rest
      pure (spec :: others)

/-- Embeds `normalizeCourse(data, topic)` from src/index.js.  A `.error ()`
result corresponds to the JavaScript function throwing a `TypeError`
(property access on `undefined` or `null`). -/
def normalizeCourse (data : JsValue) (topic : String) : Except Unit Course := do
  let daysV ← getField data "days"
  let nDays ← normDaysGo 0 (arrayElems daysV)
  let resourcesV ← getField data "resources"
  let nResources ← normResourcesGo (arrayElems resourcesV)
  let titleV ← getField data "title"
  let durationV ← getField data "duration"
  let summaryV ← getField data "summary"
  let totalLessonsV ← getField data "totalLessons"
  let estimatedTimeV ← getField data "estimatedTime"
  pure
    { title := jsToString (safe titleV (.str ("Master " ++ topic)))
      duration := jsToString (safe durationV (.str "5 Days"))
      summary := jsToString (safe summaryV (.str ("A comprehensive mini-course designed to take you from beginner to confident in " ++ topic ++ ".")))
      totalLessons := jsToNumber (safe totalLessonsV (.num (.int 15)))
      estimatedTime := jsToString (safe estimatedTimeV (.str "2-3 hours/day"))
      days := if nDays.length = 0 then dummyCourse.days else nDays
      resources := if nResources.length = 0 then dummyCourse.resources else nResources }

/-- Whether the first list is a prefix of the second. -/
def listStartsWith : List Char → List Char → Bool
  | [], _ => true
  | _ :: _, [] => false
  | p :: ps, c :: cs => p = c && listStartsWith ps cs

/-- The triple-backtick fence marker of both regexes. -/
def tripleTick : List Char := ['\x60', '\x60', '\x60']

/-- Split a character list at the first occurrence of a triple backtick,
returning the text before it and the text after it. -/
def splitAtTicks : List Char → Option (List Char × List Char)
  | [] => none
  | c :: rest =>
      if listStartsWith tripleTick (c :: rest) then some ([], rest.drop 2)
      else
        match splitAtTicks rest with
        | some (a, b) => some (c :: a, b)
        | none => none

/-- Inner-content extraction shared by both fence regexes of `extractJson`,
applied to the text after the opening fence marker: the greedy leading
`\s*` skips whitespace, the lazy group runs to the first closing triple
backtick, and the `\s*` before the closing marker strips trailing
whitespace from the group. -/
def fenceInner (l : List Char) : Option (List Char) :=
  match splitAtTicks (l.dropWhile isJsWs) with
  | none => none
  | some (mid, _) => some (dropTrailingWs mid)

/-- One attempt of the case-insensitive regex
triple-backtick `json` `\s*([\s\S]*?)\s*` triple-backtick at the head of
the list, returning capture group 1. -/
def matchJsonFenceAt (l : List Char) : Option (List Char) :=
  if listStartsWith tripleTick l then
    match l.drop 3 with
    | c1 :: c2 :: c3 :: c4 :: rest =>
        if c1.toLower = 'j' && c2.toLower = 's' && c3.toLower = 'o' && c4.toLower = 'n' then
          fenceInner rest
        else none
    | _ => none
  else none

/-- Leftmost match of the `json`-tagged fence regex, as
`text.match(...)` computes it: try every start position left to right. -/
def findJsonFence : List Char → Option (List Char)
  | [] => none
  | c :: rest =>
      match matchJsonFenceAt (c :: rest) with
      | some g => some g
      | none => findJsonFence rest

/-- One attempt of the untagged fence regex at the head of the list. -/
def matchPlainFenceAt (l : List Char) : Option (List Char) :=
  if listStartsWith tripleTick l then fenceInner (l.drop 3) else none

/-- Leftmost match of the untagged fence regex. -/
def findPlainFence : List Char → Option (List Char)
  | [] => none
  | c :: rest =>
      match matchPlainFenceAt (c :: rest) with
      | some g => some g
      | none => findPlainFence rest

/-- Embeds `extractJson(text)` from src/index.js: the `json`-tagged fence
regex is tried first, then the untagged fence regex; if either matches,
its capture group is used, otherwise the original text; the result is
trimmed. -/
def extractJson (text : String) : String :=
  let block : Option (List Char) :=
    match findJsonFence text.data with
    | some g => some g
    | none => findPlainFence text.data
  String.mk (jsTrimL (match block with
    | some g => g
    | none => text.data))

/-- Lowercase hexadecimal digit for a value below 16. -/
def hexDigit (n : Nat) : Char :=
  if n < 10 then Char.ofNat (48 + n) else Char.ofNat (87 + n)

/-- `JSON.stringify` escaping of one character inside a string literal. -/
def escapeJsonChar (c : Char) : List Char :=
  if c = '"' then ['\\', '"']
  else if c = '\\' then ['\\', '\\']
  else if c = '\x08' then ['\\', 'b']
  else if c = '\t' then ['\\', 't']
  else if c = '\n' then ['\\', 'n']
  else if c = '\x0c' then ['\\', 'f']
  else if c = '\r' then ['\\', 'r']
  else if c.toNat < 32 then
    ['\\', 'u', '0', '0', hexDigit (c.toNat / 16), hexDigit (c.toNat % 16)]
  else [c]

/-- Escape the characters of a string body one by one onto an
accumulated tail (difference-list style, so the serialized text is built
as flat cons cells). -/
def escapeJsonInto : List Char → List Char → List Char
  | [], acc => acc
  | c :: rest, acc => escapeJsonChar c ++ escapeJsonInto rest acc

/-- `JSON.stringify` rendering of a string onto an accumulated tail,
quotes included. -/
def quoteJsonStringInto (s : String) (acc : List Char) : List Char :=
  '"' :: escapeJsonInto s.data ('"' :: acc)

mutual

/-- `JSON.stringify(v)` without indentation, serialized onto an
accumulated tail.  `undefined` and `NaN` serialize as `null` (the
in-array behaviour; the only value the code stringifies, `dummyCourse`,
contains neither). -/
def jsonStringifyInto : JsValue → List Char → List Char
  | .undefined, acc => "null".data ++ acc
  | .null, acc => "null".data ++ acc
  | .bool true, acc => "true".data ++ acc
  | .bool false, acc => "false".data ++ acc
  | .num .nan, acc => "null".data ++ acc
  | .num (.int i), acc => (toString i).data ++ acc
  | .str s, acc => quoteJsonStringInto s acc
  | .arr xs, acc => '[' :: jsonStringifyElemsInto xs (']' :: acc)
  | .obj fs, acc => '\x7b' :: jsonStringifyFieldsInto fs ('\x7d' :: acc)

/-- Comma-separated serialization of array elements onto a tail. -/
def jsonStringifyElemsInto : List JsValue → List Char → List Char
  | [], acc => acc
  | [x], acc => jsonStringifyInto x acc
  | x :: rest, acc => jsonStringifyInto x (',' :: jsonStringifyElemsInto rest acc)

/-- Comma-separated serialization of object members, in field order,
onto a tail. -/
def jsonStringifyFieldsInto : List (String × JsValue) → List Char → List Char
  | [], acc => acc
  | [p], acc => quoteJsonStringInto p.1 (':' :: jsonStringifyInto p.2 acc)
  | p :: rest, acc =>
      quoteJsonStringInto p.1
        (':' :: jsonStringifyInto p.2 (',' :: jsonStringifyFieldsInto rest acc))

end

/-- The serialized text of `JSON.stringify(v)`. -/
def jsonStringify (v : JsValue) : List Char :=
  jsonStringifyInto v []

/-- Scan of `String.prototype.replaceAll`: at each position, a match of
the (non-empty literal) pattern is replaced — without rescanning the
replacement — and the scan resumes after the matched span.  The first
argument counts the characters of the current match still to be skipped,
which keeps the recursion structural on the scanned text. -/
def replaceAllGo (pat rep : List Char) : Nat → List Char → List Char
  | _, [] => []
  | 0, c :: rest =>
      if listStartsWith pat (c :: rest) then
        rep ++ replaceAllGo pat rep (pat.length - 1) rest
      else
        c :: replaceAllGo pat rep 0 rest
  | skip + 1, _ :: rest => replaceAllGo pat rep skip rest

/-- JavaScript `s.replaceAll(pat, rep)` for a non-empty literal pattern. -/
def replaceAll (s pat rep : String) : String :=
  String.mk (replaceAllGo pat.data rep.data 0 s.data)

/-- Tail-recursive character-list equality, used to evaluate long
concrete text equalities in constant stack space. -/
def listEqTR : List Char → List Char → Bool
  | [], [] => true
  | a :: as, b :: bs => if a = b then listEqTR as bs else false
  | _, _ => false

/-- JSON's insignificant-whitespace class (strictly smaller than `\s`). -/
def isJsonWsChar (c : Char) : Bool :=
  c = ' ' || c = '\t' || c = '\n' || c = '\r'

/-- Hexadecimal digit value. -/
def hexVal? (c : Char) : Option Nat :=
  if '0' ≤ c && c ≤ '9' then some (c.toNat - 48)
  else if 'a' ≤ c && c ≤ 'f' then some (c.toNat - 87)
  else if 'A' ≤ c && c ≤ 'F' then some (c.toNat - 55)
  else none

/-- Body of a JSON string literal after the opening quote: characters up
to the closing quote, with escape sequences decoded.  Control characters
must be escaped; `\u` escapes outside the basic plane's scalar values are
rejected. -/
def parseJsonStringBody : List Char → Except Unit (List Char × List Char)
  | [] => .error ()
  | '"' :: rest => .ok ([], rest)
  | '\\' :: rest =>
      match rest with
      | '"' :: r => (parseJsonStringBody r).map (fun p => ('"' :: p.1, p.2))
      | '\\' :: r => (parseJsonStringBody r).map (fun p => ('\\' :: p.1, p.2))
      | '/' :: r => (parseJsonStringBody r).map (fun p => ('/' :: p.1, p.2))
      | 'b' :: r => (parseJsonStringBody r).map (fun p => ('\x08' :: p.1, p.2))
      | 'f' :: r => (parseJsonStringBody r).map (fun p => ('\x0c' :: p.1, p.2))
      | 'n' :: r => (parseJsonStringBody r).map (fun p => ('\n' :: p.1, p.2))
      | 'r' :: r => (parseJsonStringBody r).map (fun p => ('\r' :: p.1, p.2))
      | 't' :: r => (parseJsonStringBody r).map (fun p => ('\t' :: p.1, p.2))
      | 'u' :: h1 :: h2 :: h3 :: h4 :: r =>
          match hexVal? h1, hexVal? h2, hexVal? h3, hexVal? h4 with
          | some a, some b, some c, some d =>
              let n := ((a * 16 + b) * 16 + c) * 16 + d
              if n < 0xd800 || 0xe000 ≤ n then
                (parseJsonStringBody r).map (fun p => (Char.ofNat n :: p.1, p.2))
              else .error ()
          | _, _, _, _ => .error ()
      | _ => .error ()
  | c :: rest =>
      if c.toNat < 32 then .error ()
      else (parseJsonStringBody rest).map (fun p => (c :: p.1, p.2))

/-- A JSON integer numeral after an optional leading minus: a digit run
with no superfluous leading zero.  Fractional and exponent numerals are
outside the integer-precision model and rejected; no datum in this code
base uses them. -/
def parseJsonNat : List Char → Except Unit (Nat × List Char)
  | [] => .error ()
  | c :: rest =>
      if c.isDigit then
        let ds := (c :: rest).takeWhile Char.isDigit
        let rem := (c :: rest).dropWhile Char.isDigit
        if c = '0' && ds.length > 1 then .error ()
        else
          match rem with
          | '.' :: _ => .error ()
          | 'e' :: _ => .error ()
          | 'E' :: _ => .error ()
          | _ =>
              match digitsToNat? ds with
              | some n => .ok (n, rem)
              | none => .error ()
      else .error ()

mutual

/-- Fuel-driven model of `JSON.parse`'s value parser on the remaining
input; the fuel bounds the recursion depth and `JSONParse` supplies
enough of it for any input of the given length. -/
def parseValueF : Nat → List Char → Except Unit (JsValue × List Char)
  | 0, _ => .error ()
  | fuel + 1, s =>
      match s.dropWhile isJsonWsChar with
      | '\x7b' :: rest => parseObjectF fuel rest
      | '[' :: rest => parseArrayF fuel rest
      | '"' :: rest =>
          match parseJsonStringBody rest with
          | .ok (cs, rem) => .ok (.str (String.mk cs), rem)
          | .error _ => .error ()
      | 't' :: 'r' :: 'u' :: 'e' :: rest => .ok (.bool true, rest)
      | 'f' :: 'a' :: 'l' :: 's' :: 'e' :: rest => .ok (.bool false, rest)
      | 'n' :: 'u' :: 'l' :: 'l' :: rest => .ok (.null, rest)
      | '-' :: rest =>
          match parseJsonNat rest with
          | .ok (n, rem) => .ok (.num (.int (-(n : Int))), rem)
          | .error _ => .error ()
      | c :: rest =>
          match parseJsonNat (c :: rest) with
          | .ok (n, rem) => .ok (.num (.int (n : Int)), rem)
          | .error _ => .error ()
      | [] => .error ()

/-- Object parser, entered after the opening brace. -/
def parseObjectF : Nat → List Char → Except Unit (JsValue × List Char)
  | 0, _ => .error ()
  | fuel + 1, s =>
      match s.dropWhile isJsonWsChar with
      | '\x7d' :: rest => .ok (.obj [], rest)
      | s' =>
          match parseMembersF fuel s' with
          | .ok (fs, rest) => .ok (.obj fs, rest)
          | .error _ => .error ()

/-- One or more `"key": value` members, consuming the closing brace. -/
def parseMembersF : Nat → List Char → Except Unit (List (String × JsValue) × List Char)
  | 0, _ => .error ()
  | fuel + 1, s =>
      match s.dropWhile isJsonWsChar with
      | '"' :: rest =>
          match parseJsonStringBody rest with
          | .ok (kcs, rem) =>
              match rem.dropWhile isJsonWsChar with
              | ':' :: rem2 =>
                  match parseValueF fuel rem2 with
                  | .ok (v, rem3) =>
                      match rem3.dropWhile isJsonWsChar with
                      | ',' :: rem4 =>
                          match parseMembersF fuel rem4 with
                          | .ok (fs, rem5) => .ok ((String.mk kcs, v) :: fs, rem5)
                          | .error _ => .error ()
                      | '\x7d' :: rem4 => .ok ([(String.mk kcs, v)], rem4)
                      | _ => .error ()
                  | .error _ => .error ()
              | _ => .error ()
          | .error _ => .error ()
      | _ => .error ()

/-- Array parser, entered after the opening bracket. -/
def parseArrayF : Nat → List Char → Except Unit (JsValue × List Char)
  | 0, _ => .error ()
  | fuel + 1, s =>
      match s.dropWhile isJsonWsChar with
      | ']' :: rest => .ok (.arr [], rest)
      | s' =>
          match parseElementsF fuel s' with
          | .ok (xs, rest) => .ok (.arr xs, rest)
          | .error _ => .error ()

/-- One or more array elements, consuming the closing bracket. -/
def parseElementsF : Nat → List Char → Except Unit (List JsValue × List Char)
  | 0, _ => .error ()
  | fuel + 1, s =>
      match parseValueF fuel s with
      | .ok (v, rem) =>
          match rem.dropWhile isJsonWsChar with
          | ',' :: rem2 =>
              match parseElementsF fuel rem2 with
              | .ok (xs, rem3) => .ok (v :: xs, rem3)
              | .error _ => .error ()
          | ']' :: rem2 => .ok ([v], rem2)
          | _ => .error ()
      | .error _ => .error ()

end

/-- Model of `JSON.parse(s)`: parse one value, then require only
whitespace to remain.  A `.error ()` result corresponds to a thrown
`SyntaxError`.  The fuel `4 * (length + 1)` exceeds the recursion depth
of any parse, since at most three nested calls occur per consumed
character. -/
def JSONParse (s : String) : Except Unit JsValue :=
  match parseValueF (4 * (s.data.length + 1)) s.data with
  | .ok (v, rest) => if (rest.dropWhile isJsonWsChar).isEmpty then .ok v else .error ()
  | .error _ => .error ()

/-- The caller-visible outcome of a `POST /generate-course` request that
did produce a response: a 400 with an error message, or a 200 with a
course body. -/
inductive HandlerResult where
  | badRequest (error : String)
  | okCourse (course : Course)
deriving Repr

/-- Embeds `generateCourseFromGemini(topic)` with the external model
call abstracted as its outcome: `.error ()` for a failed call
(network/auth/quota), `.ok raw` for a raw text response.  The raw text
goes through `extractJson` and `JSON.parse`; a parse failure throws
("Invalid JSON from model"). -/
def generateCourseFromGemini (modelResponse : Except Unit String) : Except Unit JsValue :=
  match modelResponse with
  | .error _ => .error ()
  | .ok raw => JSONParse (extractJson raw)

/-- The fallback construction of the catch block:
`JSON.parse(JSON.stringify(dummyCourse).replaceAll("\x7b\x7bTOPIC\x7d\x7d", topic))`. -/
def fallbackCourseJson (topic : String) : Except Unit JsValue :=
  JSONParse (replaceAll (String.mk (jsonStringify (courseToJs dummyCourse))) "\x7b\x7bTOPIC\x7d\x7d" topic)

/-- The catch block of the handler: build the substituted fallback and
normalize it.  A throw inside the catch block (malformed substituted
JSON, or a normalization failure) is unhandled and aborts the request,
modelled as `.error ()`. -/
def fallbackBranch (topic : String) : Except Unit HandlerResult :=
  match fallbackCourseJson topic with
  | .error _ => .error ()
  | .ok fb =>
      match normalizeCourse fb topic with
      | .ok c => .ok (.okCourse c)
      | .error _ => .error ()

/-- Embeds the `POST /generate-course` handler: destructure `topic` from
the body, reject missing/falsy/non-string topics with a 400, then try the
model and normalize, falling back to the substituted dummy course on any
failure of the try block.  The unreachable default arm (a truthy value
that is and is not a string) is mapped to `.error ()`. -/
def postGenerateCourse (body : JsValue) (modelResponse : Except Unit String) :
    Except Unit HandlerResult :=
  match getField body "topic" with
  | .error _ => .error ()
  | .ok topicV =>
      if !jsTruthy topicV || !isStringV topicV then
        .ok (.badRequest "Topic is required (string)")
      else
        match topicV with
        | .str topic =>
            match generateCourseFromGemini modelResponse with
            | .ok data =>
                match normalizeCourse data topic with
                | .ok c => .ok (.okCourse c)
                | .error _ => fallbackBranch topic
            | .error _ => fallbackBranch topic
        | _ => .error ()

/-- Whether a value is `undefined` or `null` — exactly the values on which
JavaScript property access throws. -/
def isNullish : JsValue → Bool
  | .undefined => true
  | .null => true
  | _ => false

/-- The value property access `v.k` yields when it does not throw:
a field lookup on objects, `undefined` on other primitives and arrays. -/
def fieldVal (v : JsValue) (k : String) : JsValue :=
  match v with
  | .obj fs => lookupField fs k
  | _ => .undefined

/-- The element list `normalizeCourse` iterates for field `k`. -/
def fieldElems (v : JsValue) (k : String) : List JsValue :=
  arrayElems (fieldVal v k)

/-- Whether a character list contains a triple backtick anywhere — the
necessary ingredient of both fence regexes of `extractJson`. -/
def hasTripleTick : List Char → Bool
  | [] => false
  | c :: rest => listStartsWith tripleTick (c :: rest) || hasTripleTick rest

/-- Modelled from the spec (section 3 data model): a `Course` value whose
fields carry their declared semantic types — `totalLessons` and every
`day` number an integer, `days` and `resources` non-empty, every resource
`type` in the enumeration.  Used to express claim C3's notion of
well-formed Course-shaped input. -/
def courseWellTyped (c : Course) : Bool :=
  (match c.totalLessons with
    | .int _ => true
    | .nan => false) &&
  !c.days.isEmpty &&
  c.days.all (fun d => match d.day with
    | .int _ => true
    | .nan => false) &&
  !c.resources.isEmpty &&
  c.resources.all (fun r => ["video", "article", "pdf"].contains r.type)

/-- Modelled from the spec (section 8): well-formed Course-shaped JSON
input is the JSON image of a well-typed `Course` value. -/
def WellFormedCourseInput (data : JsValue) : Prop :=
  ∃ c : Course, data = courseToJs c ∧ courseWellTyped c = true

/-- The fallback template with its topic placeholder substituted, as the
typed course value the fallback round trip denotes: only `title` and
`summary` contain the placeholder. -/
def dummyCourseFor (topic : String) : Course :=
  { dummyCourse with
    title := replaceAll dummyCourse.title "\x7b\x7bTOPIC\x7d\x7d" topic
    summary := replaceAll dummyCourse.summary "\x7b\x7bTOPIC\x7d\x7d" topic }


lemma listEqTR_eq : ∀ {a b : List Char}, listEqTR a b = true → a = b := by
  intro a
  induction a with
  | nil =>
      intro b h
      cases b with
      | nil => rfl
      | cons y ys => simp [listEqTR] at h
  | cons x xs ih =>
      intro b h
      cases b with
      | nil => simp [listEqTR] at h
      | cons y ys =>
          rw [listEqTR] at h
          by_cases hxy : x = y
          · rw [if_pos hxy] at h
            rw [hxy, ih h]
          · rw [if_neg hxy] at h
            exact absurd h (by simp)

@[simp] lemma exceptBind_ok {α β : Type} (a : α) (f : α → Except Unit β) :
    (Except.ok a : Except Unit α) >>= f = f a := rfl

@[simp] lemma exceptBind_error {α β : Type} (e : Unit) (f : α → Except Unit β) :
    (Except.error e : Except Unit α) >>= f = Except.error e := rfl

@[simp] lemma exceptPure {α : Type} (a : α) :
    (pure a : Except Unit α) = Except.ok a := rfl

lemma getField_eq {v : JsValue} (k : String) (h : isNullish v = false) :
    getField v k = .ok (fieldVal v k) := by
  cases v <;> simp_all [getField, fieldVal, isNullish]

lemma normDay_eq {d : JsValue} (i : Nat) (h : isNullish d = false) :
    normDay i d = .ok
      { day := jsToNumber (safe (fieldVal d "day") (.num (.int ((i : Int) + 1))))
        title := jsToString (safe (fieldVal d "title") (.str ("Day " ++ toString (i + 1))))
        goals := asStringArray (fieldVal d "goals")
        concepts := asStringArray (fieldVal d "concepts")
        exercises := asStringArray (fieldVal d "exercises") } := by
  cases d <;> first
    | rfl
    | simp [isNullish] at h

lemma normDay_inv {d : JsValue} {i : Nat} {s : DaySpec} (h : normDay i d = .ok s) :
    isNullish d = false ∧
    s = { day := jsToNumber (safe (fieldVal d "day") (.num (.int ((i : Int) + 1))))
          title := jsToString (safe (fieldVal d "title") (.str ("Day " ++ toString (i + 1))))
          goals := asStringArray (fieldVal d "goals")
          concepts := asStringArray (fieldVal d "concepts")
          exercises := asStringArray (fieldVal d "exercises") } := by
  have hnn : isNullish d = false := by
    cases d <;> first
      | rfl
      | simp [normDay, getField] at h
  rw [normDay_eq i hnn] at h
  injection h with h
  exact ⟨hnn, h.symm⟩

lemma normResource_eq {r : JsValue} (h : isNullish r = false) :
    normResource r = .ok
      { title := jsToString (safe (fieldVal r "title") (.str "Resource"))
        type := resType (fieldVal r "type")
        url := jsToString (safe (fieldVal r "url") (.str "https://example.com"))
        description := jsToString (safe (fieldVal r "description") (.str "")) } := by
  cases r <;> first
    | rfl
    | simp [isNullish] at h

lemma normResource_inv {r : JsValue} {s : ResourceSpec} (h : normResource r = .ok s) :
    isNullish r = false ∧ s.type = resType (fieldVal r "type") := by
  have hnn : isNullish r = false := by
    cases r <;> first
      | rfl
      | simp [normResource, getField] at h
  rw [normResource_eq hnn] at h
  injection h with h
  exact ⟨hnn, by rw [← h]⟩

lemma normDaysGo_total :
    ∀ (l : List JsValue) (i : Nat), (∀ d ∈ l, isNullish d = false) →
      ∃ specs, normDaysGo i l = .ok specs := by
  intro l
  induction l with
  | nil => exact fun i _ => ⟨[], rfl⟩
  | cons d rest ih =>
      intro i h
      obtain ⟨specs, hs⟩ := ih (i + 1) (fun x hx => h x (List.mem_cons_of_mem _ hx))
      cases hx : normDaysGo i (d :: rest) with
      | ok specs' => exact ⟨specs', rfl⟩
      | error e =>
          exfalso
          simp only [normDaysGo] at hx
          rw [normDay_eq i (h d (List.mem_cons_self _ _)), exceptBind_ok, hs,
              exceptBind_ok] at hx
          exact nomatch hx

lemma normResourcesGo_total :
    ∀ (l : List JsValue), (∀ r ∈ l, isNullish r = false) →
      ∃ specs, normResourcesGo l = .ok specs := by
  intro l
  induction l with
  | nil => exact fun _ => ⟨[], rfl⟩
  | cons r rest ih =>
      intro h
      obtain ⟨specs, hs⟩ := ih (fun x hx => h x (List.mem_cons_of_mem _ hx))
      cases hx : normResourcesGo (r :: rest) with
      | ok specs' => exact ⟨specs', rfl⟩
      | error e =>
          exfalso
          simp only [normResourcesGo] at hx
          rw [normResource_eq (h r (List.mem_cons_self _ _)), exceptBind_ok, hs,
              exceptBind_ok] at hx
          exact nomatch hx

lemma normDaysGo_spec :
    ∀ (l : List JsValue) (i : Nat) (specs : List DaySpec),
      normDaysGo i l = .ok specs →
      specs.length = l.length ∧
      ∀ j (hj : j < l.length), ∃ hs : j < specs.length,
        normDay (i + j) (l.get ⟨j, hj⟩) = .ok (specs.get ⟨j, hs⟩) := by
  intro l
  induction l with
  | nil =>
      intro i specs h
      simp only [normDaysGo] at h
      injection h with h
      subst h
      exact ⟨rfl, fun j hj => absurd hj (by simp)⟩
  | cons d rest ih =>
      intro i specs h
      simp only [normDaysGo] at h
      cases hd : normDay i d with
      | error e => rw [hd] at h; simp at h
      | ok s =>
          rw [hd] at h
          cases hrest : normDaysGo (i + 1) rest with
          | error e => rw [hrest] at h; simp at h
          | ok others =>
              rw [hrest] at h
              simp only [exceptBind_ok, exceptPure] at h
              injection h with h
              subst h
              obtain ⟨hlen, hget⟩ := ih (i + 1) others hrest
              refine ⟨by simp [hlen], ?_⟩
              intro j hj
              cases j with
              | zero => exact ⟨by simp, by simpa using hd⟩
              | succ j' =>
                  obtain ⟨hs, hh⟩ := hget j' (by simpa using Nat.lt_of_succ_lt_succ hj)
                  refine ⟨by simpa using Nat.succ_lt_succ hs, ?_⟩
                  have harith : i + (j' + 1) = i + 1 + j' := by omega
                  rw [harith]
                  simpa using hh

lemma normResourcesGo_mem :
    ∀ (l : List JsValue) (specs : List ResourceSpec),
      normResourcesGo l = .ok specs →
      specs.length = l.length ∧ ∀ s ∈ specs, ∃ r ∈ l, normResource r = .ok s := by
  intro l
  induction l with
  | nil =>
      intro specs h
      simp only [normResourcesGo] at h
      injection h with h
      subst h
      simp
  | cons r rest ih =>
      intro specs h
      simp only [normResourcesGo] at h
      cases hr : normResource r with
      | error e => rw [hr] at h; simp at h
      | ok s =>
          rw [hr] at h
          cases hrest : normResourcesGo rest with
          | error e => rw [hrest] at h; simp at h
          | ok others =>
              rw [hrest] at h
              simp only [exceptBind_ok, exceptPure] at h
              injection h with h
              subst h
              obtain ⟨hlen, hmem⟩ := ih others hrest
              refine ⟨by simp [hlen], ?_⟩
              intro s' hs'
              rcases List.mem_cons.mp hs' with h0 | h0
              · exact ⟨r, List.mem_cons_self _ _, h0 ▸ hr⟩
              · obtain ⟨r', hr', hok⟩ := hmem s' h0
                exact ⟨r', List.mem_cons_of_mem _ hr', hok⟩

lemma normalizeCourse_eq_ok {data : JsValue} {topic : String}
    {nD : List DaySpec} {nR : List ResourceSpec}
    (h : isNullish data = false)
    (hD : normDaysGo 0 (fieldElems data "days") = .ok nD)
    (hR : normResourcesGo (fieldElems data "resources") = .ok nR) :
    normalizeCourse data topic = .ok
      { title := jsToString (safe (fieldVal data "title") (.str ("Master " ++ topic)))
        duration := jsToString (safe (fieldVal data "duration") (.str "5 Days"))
        summary := jsToString (safe (fieldVal data "summary") (.str ("A comprehensive mini-course designed to take you from beginner to confident in " ++ topic ++ ".")))
        totalLessons := jsToNumber (safe (fieldVal data "totalLessons") (.num (.int 15)))
        estimatedTime := jsToString (safe (fieldVal data "estimatedTime") (.str "2-3 hours/day"))
        days := if nD.length = 0 then dummyCourse.days else nD
        resources := if nR.length = 0 then dummyCourse.resources else nR } := by
  simp only [fieldElems] at hD hR
  unfold normalizeCourse
  rw [getField_eq "days" h, exceptBind_ok, hD, exceptBind_ok,
      getField_eq "resources" h, exceptBind_ok, hR, exceptBind_ok,
      getField_eq "title" h, exceptBind_ok,
      getField_eq "duration" h, exceptBind_ok,
      getField_eq "summary" h, exceptBind_ok,
      getField_eq "totalLessons" h, exceptBind_ok,
      getField_eq "estimatedTime" h, exceptBind_ok]
  rfl

lemma normalizeCourse_inv {data : JsValue} {topic : String} {c : Course}
    (h : normalizeCourse data topic = .ok c) :
    isNullish data = false ∧
    ∃ nD nR, normDaysGo 0 (fieldElems data "days") = .ok nD ∧
      normResourcesGo (fieldElems data "resources") = .ok nR ∧
      c = { title := jsToString (safe (fieldVal data "title") (.str ("Master " ++ topic)))
            duration := jsToString (safe (fieldVal data "duration") (.str "5 Days"))
            summary := jsToString (safe (fieldVal data "summary") (.str ("A comprehensive mini-course designed to take you from beginner to confident in " ++ topic ++ ".")))
            totalLessons := jsToNumber (safe (fieldVal data "totalLessons") (.num (.int 15)))
            estimatedTime := jsToString (safe (fieldVal data "estimatedTime") (.str "2-3 hours/day"))
            days := if nD.length = 0 then dummyCourse.days else nD
            resources := if nR.length = 0 then dummyCourse.resources else nR } := by
  have hnn : isNullish data = false := by
    cases data <;> first
      | rfl
      | simp [normalizeCourse, getField] at h
  refine ⟨hnn, ?_⟩
  cases hD : normDaysGo 0 (fieldElems data "days") with
  | error e =>
      exfalso
      have hD' := hD
      simp only [fieldElems] at hD'
      unfold normalizeCourse at h
      rw [getField_eq "days" hnn, exceptBind_ok, hD'] at h
      exact nomatch h
  | ok nD =>
      cases hR : normResourcesGo (fieldElems data "resources") with
      | error e =>
          exfalso
          have hD' := hD
          have hR' := hR
          simp only [fieldElems] at hD' hR'
          unfold normalizeCourse at h
          rw [getField_eq "days" hnn, exceptBind_ok, hD', exceptBind_ok,
              getField_eq "resources" hnn, exceptBind_ok, hR'] at h
          exact nomatch h
      | ok nR =>
          refine ⟨nD, nR, rfl, rfl, ?_⟩
          rw [normalizeCourse_eq_ok hnn hD hR] at h
          injection h with h
          exact h.symm

lemma resType_mem (v : JsValue) :
    resType v ∈ (["video", "article", "pdf"] : List String) := by
  have harticle : ("article" : String) ∈ (["video", "article", "pdf"] : List String) := by simp
  cases v with
  | str s =>
      by_cases h : (["video", "article", "pdf"] : List String).contains s = true
      · show (if (["video", "article", "pdf"] : List String).contains s then s else "article") ∈ _
        rw [if_pos h]
        exact List.elem_iff.mp h
      · show (if (["video", "article", "pdf"] : List String).contains s then s else "article") ∈ _
        rw [if_neg h]
        exact harticle
  | undefined => exact harticle
  | null => exact harticle
  | bool b => exact harticle
  | num n => exact harticle
  | arr xs => exact harticle
  | obj fs => exact harticle

lemma dummyResources_types :
    ∀ r ∈ dummyCourse.resources, r.type ∈ (["video", "article", "pdf"] : List String) := by
  decide

lemma normDay_nullish {d : JsValue} (i : Nat) (h : isNullish d = true) :
    normDay i d = .error () := by
  cases d <;> first
    | rfl
    | simp [isNullish] at h

lemma normResource_nullish {r : JsValue} (h : isNullish r = true) :
    normResource r = .error () := by
  cases r <;> first
    | rfl
    | simp [isNullish] at h

lemma normDaysGo_error :
    ∀ (l : List JsValue) (i : Nat), (∃ d ∈ l, isNullish d = true) →
      normDaysGo i l = .error () := by
  intro l
  induction l with
  | nil =>
      intro i h
      obtain ⟨d, hd, _⟩ := h
      exact absurd hd (List.not_mem_nil d)
  | cons d rest ih =>
      intro i h
      cases hnd : isNullish d with
      | true =>
          simp only [normDaysGo]
          rw [normDay_nullish i hnd, exceptBind_error]
      | false =>
          obtain ⟨x, hx, hxn⟩ := h
          rcases List.mem_cons.mp hx with rfl | hx'
          · rw [hnd] at hxn
            exact nomatch hxn
          · simp only [normDaysGo]
            rw [normDay_eq i hnd, exceptBind_ok, ih (i + 1) ⟨x, hx', hxn⟩,
                exceptBind_error]

lemma normResourcesGo_error :
    ∀ (l : List JsValue), (∃ r ∈ l, isNullish r = true) →
      normResourcesGo l = .error () := by
  intro l
  induction l with
  | nil =>
      intro h
      obtain ⟨r, hr, _⟩ := h
      exact absurd hr (List.not_mem_nil r)
  | cons r rest ih =>
      intro h
      cases hnr : isNullish r with
      | true =>
          simp only [normResourcesGo]
          rw [normResource_nullish hnr, exceptBind_error]
      | false =>
          obtain ⟨x, hx, hxn⟩ := h
          rcases List.mem_cons.mp hx with rfl | hx'
          · rw [hnr] at hxn
            exact nomatch hxn
          · simp only [normResourcesGo]
            rw [normResource_eq hnr, exceptBind_ok, ih ⟨x, hx', hxn⟩,
                exceptBind_error]

lemma normDaysGo_ok_nonNullish {l : List JsValue} {i : Nat} {specs : List DaySpec}
    (h : normDaysGo i l = .ok specs) : ∀ d ∈ l, isNullish d = false := by
  intro d hd
  cases hn : isNullish d with
  | false => rfl
  | true =>
      rw [normDaysGo_error l i ⟨d, hd, hn⟩] at h
      exact nomatch h

lemma normResourcesGo_ok_nonNullish {l : List JsValue} {specs : List ResourceSpec}
    (h : normResourcesGo l = .ok specs) : ∀ r ∈ l, isNullish r = false := by
  intro r hr
  cases hn : isNullish r with
  | false => rfl
  | true =>
      rw [normResourcesGo_error l ⟨r, hr, hn⟩] at h
      exact nomatch h

/-- Claim C1 (corrected), counterexample to the claim as stated: applied
to `undefined` or `null`, `normalizeCourse` does not return a Course —
the very first property access `data.days` throws a `TypeError`. -/
theorem C1_normalizeCourse_undefined_throws :
    normalizeCourse .undefined "X" = .error () ∧ normalizeCourse .null "X" = .error () :=
  ⟨rfl, rfl⟩

/-- Claim C1 (amended): `normalizeCourse data topic` returns a Course
without throwing exactly when the candidate is not `undefined`/`null`
and the element lists of its `days` and `resources` fields (empty unless
the field holds an array) contain no `undefined`/`null` entry — so it
succeeds on strings, numbers, arrays, and `\x7b\x7d`, with `\x7b\x7d`
yielding the fallback template's days and resources, but throws on
`undefined`, on `null`, and on `\x7bdays: [null]\x7d` (where the
per-element access `d.day` throws). -/
theorem C1_normalizeCourse_totality :
    (∀ (data : JsValue) (topic : String),
      (∃ c, normalizeCourse data topic = .ok c) ↔
        (isNullish data = false ∧
         (∀ d ∈ fieldElems data "days", isNullish d = false) ∧
         (∀ r ∈ fieldElems data "resources", isNullish r = false))) ∧
    (normalizeCourse (.obj []) "X").map (fun c => (c.days, c.resources)) =
      .ok (dummyCourse.days, dummyCourse.resources) ∧
    normalizeCourse .undefined "X" = .error () ∧
    normalizeCourse (.obj [("days", .arr [.null])]) "X" = .error () := by
  refine ⟨?_, rfl, rfl, rfl⟩
  intro data topic
  constructor
  · rintro ⟨c, hc⟩
    obtain ⟨hnn, nD, nR, hD, hR, _⟩ := normalizeCourse_inv hc
    exact ⟨hnn, normDaysGo_ok_nonNullish hD, normResourcesGo_ok_nonNullish hR⟩
  · rintro ⟨h1, h2, h3⟩
    obtain ⟨nD, hD⟩ := normDaysGo_total (fieldElems data "days") 0 h2
    obtain ⟨nR, hR⟩ := normResourcesGo_total (fieldElems data "resources") h3
    exact ⟨_, normalizeCourse_eq_ok h1 hD hR⟩

/-- Claim C1 witness: the success direction of the characterization
applied at the concrete candidate `\x7b\x7d` with topic "X". -/
theorem C1_normalizeCourse_totality_witness :
    ∃ c, normalizeCourse (.obj []) "X" = .ok c :=
  (C1_normalizeCourse_totality.1 (.obj []) "X").mpr
    ⟨by decide, by decide, by decide⟩

/-- Claim C5 (confirmed): every resource `type` in a `normalizeCourse`
output is one of video/article/pdf, and a candidate resource with a bogus
`type` is coerced to "article". -/
theorem C5_resource_type_enum :
    (∀ (data : JsValue) (topic : String) (c : Course),
      normalizeCourse data topic = .ok c →
      ∀ r ∈ c.resources, r.type ∈ (["video", "article", "pdf"] : List String)) ∧
    (normalizeCourse (.obj [("resources", .arr [.obj [("type", .str "bogus")]])]) "X").map
        (fun c => c.resources.map (fun r => r.type)) = .ok ["article"] := by
  refine ⟨?_, rfl⟩
  intro data topic c h r hr
  obtain ⟨-, nD, nR, -, hR, hc⟩ := normalizeCourse_inv h
  subst hc
  simp only at hr
  by_cases hlen : nR.length = 0
  · rw [if_pos hlen] at hr
    exact dummyResources_types r hr
  · rw [if_neg hlen] at hr
    obtain ⟨-, hmem⟩ := normResourcesGo_mem _ _ hR
    obtain ⟨r', -, hok⟩ := hmem r hr
    obtain ⟨-, htype⟩ := normResource_inv hok
    rw [htype]
    exact resType_mem _

/-- Claim C5 witness: the enumeration theorem applied to the concrete
output for the bogus-type candidate. -/
theorem C5_resource_type_enum_witness :
    ∀ r ∈ (Course.resources
      { title := "Master X", duration := "5 Days",
        summary := "A comprehensive mini-course designed to take you from beginner to confident in X.",
        totalLessons := .int 15, estimatedTime := "2-3 hours/day",
        days := dummyCourse.days,
        resources := [{ title := "Resource", type := "article",
                        url := "https://example.com", description := "" }] }),
      r.type ∈ (["video", "article", "pdf"] : List String) :=
  C5_resource_type_enum.1 (.obj [("resources", .arr [.obj [("type", .str "bogus")]])]) "X" _ rfl

/-- Claim C7 (confirmed): when the candidate `days` is not an array (or
maps to an empty list) the fallback day template is substituted, likewise
for `resources`, and the output's `days` and `resources` are never
empty. -/
theorem C7_fallback_days_resources :
    (∀ (data : JsValue) (topic : String) (c : Course),
      normalizeCourse data topic = .ok c →
      (fieldElems data "days" = [] → c.days = dummyCourse.days) ∧
      (fieldElems data "resources" = [] → c.resources = dummyCourse.resources) ∧
      c.days ≠ [] ∧ c.resources ≠ []) ∧
    (normalizeCourse (.obj [("days", .str "not-an-array")]) "X").map (fun c => c.days) =
      .ok dummyCourse.days := by
  refine ⟨?_, rfl⟩
  intro data topic c h
  obtain ⟨-, nD, nR, hD, hR, hc⟩ := normalizeCourse_inv h
  subst hc
  obtain ⟨hDlen, -⟩ := normDaysGo_spec _ 0 _ hD
  obtain ⟨hRlen, -⟩ := normResourcesGo_mem _ _ hR
  refine ⟨?_, ?_, ?_, ?_⟩
  · intro hempty
    simp only
    rw [if_pos (by rw [hDlen, hempty]; rfl)]
  · intro hempty
    simp only
    rw [if_pos (by rw [hRlen, hempty]; rfl)]
  · simp only
    split
    · decide
    · next hlen => exact fun hnil => hlen (by rw [hnil]; rfl)
  · simp only
    split
    · decide
    · next hlen => exact fun hnil => hlen (by rw [hnil]; rfl)

/-- Claim C7 witness: the fallback-substitution theorem applied to the
concrete output for the string-days candidate. -/
theorem C7_fallback_days_resources_witness :
    (Course.days
      { title := "Master X", duration := "5 Days",
        summary := "A comprehensive mini-course designed to take you from beginner to confident in X.",
        totalLessons := .int 15, estimatedTime := "2-3 hours/day",
        days := dummyCourse.days, resources := dummyCourse.resources }) ≠ [] :=
  (C7_fallback_days_resources.1 (.obj [("days", .str "not-an-array")]) "X" _ rfl).2.2.1

lemma safe_nullish {v d : JsValue} (h : isNullish v = true) : safe v d = d := by
  cases v <;> simp_all [isNullish, safe]

lemma day_of_normalized {data : JsValue} {topic : String} {c : Course} {i : Nat} {e : JsValue}
    (h : normalizeCourse data topic = .ok c)
    (he : (fieldElems data "days").get? i = some e) :
    ∃ d : DaySpec, c.days.get? i = some d ∧
      d.day = jsToNumber (safe (fieldVal e "day") (.num (.int ((i : Int) + 1)))) := by
  obtain ⟨-, nD, nR, hD, hR, hc⟩ := normalizeCourse_inv h
  subst hc
  obtain ⟨hi, hgete⟩ := List.get?_eq_some.mp he
  obtain ⟨hlen, hget⟩ := normDaysGo_spec _ 0 _ hD
  obtain ⟨hs, hday⟩ := hget i hi
  have hne : ¬ nD.length = 0 := by rw [hlen]; omega
  refine ⟨nD.get ⟨i, hs⟩, ?_, ?_⟩
  · show (if nD.length = 0 then dummyCourse.days else nD).get? i = _
    rw [if_neg hne]
    exact List.get?_eq_get hs
  · obtain ⟨-, hrec⟩ := normDay_inv hday
    simp only [hgete] at hrec
    rw [hrec]
    simp [Nat.zero_add]

/-- Claim C6 (corrected), counterexample to the claim as stated: a `days`
element whose `day` field is present but invalid (the string "abc") is
numerically coerced to `NaN`, not defaulted to its 1-based position. -/
theorem C6_day_invalid_not_position :
    (normalizeCourse (.obj [("days", .arr [.obj [("day", .str "abc")]])]) "T").map
        (fun c => c.days.map (fun d => d.day)) = .ok [JsNum.nan] ∧
    JsNum.nan ≠ JsNum.int 1 :=
  ⟨rfl, by decide⟩

/-- Claim C6 (amended): a `days` element's `day` field defaults to its
1-based position only when it is missing (`undefined` or `null`); the
spec's two-day example holds.  (A present but invalid value is coerced,
possibly to `NaN` — see the counterexample.) -/
theorem C6_day_position_default :
    (∀ (data : JsValue) (topic : String) (c : Course) (i : Nat) (e : JsValue),
        normalizeCourse data topic = .ok c →
        (fieldElems data "days").get? i = some e →
        isNullish (fieldVal e "day") = true →
        ∃ d : DaySpec, c.days.get? i = some d ∧ d.day = .int ((i : Int) + 1)) ∧
    (normalizeCourse (.obj [("days", .arr [.obj [("title", .str "X")], .obj [("title", .str "Y")]])]) "T").map
        (fun c => c.days.map (fun d => d.day)) = .ok [.int 1, .int 2] := by
  refine ⟨?_, rfl⟩
  intro data topic c i e h he hnull
  obtain ⟨d, hd, hday⟩ := day_of_normalized h he
  refine ⟨d, hd, ?_⟩
  rw [hday, safe_nullish hnull]
  rfl

/-- Claim C6 witness: the amended theorem applied at the spec's two-day
example, position 0. -/
theorem C6_day_position_default_witness :
    ∃ d : DaySpec,
      ([⟨.int 1, "X", [], [], []⟩, ⟨.int 2, "Y", [], [], []⟩] : List DaySpec).get? 0 = some d ∧
      d.day = .int (((0 : Nat) : Int) + 1) :=
  C6_day_position_default.1
    (.obj [("days", .arr [.obj [("title", .str "X")], .obj [("title", .str "Y")]])]) "T"
    { title := "Master T", duration := "5 Days",
      summary := "A comprehensive mini-course designed to take you from beginner to confident in T.",
      totalLessons := .int 15, estimatedTime := "2-3 hours/day",
      days := [⟨.int 1, "X", [], [], []⟩, ⟨.int 2, "Y", [], [], []⟩],
      resources := dummyCourse.resources }
    0 (.obj [("title", .str "X")]) rfl rfl rfl

/-- Claim C8 (confirmed): numeric coercion of `totalLessons` and of each
day's `day` number never throws — `normalizeCourse` succeeds whatever
value sits in `totalLessons` — and the output's numeric fields are
exactly the `Number(safe(...))` coercion of the candidate's, with
non-numeric sources becoming the `NaN` sentinel. -/
theorem C8_numeric_coercion_total :
    (∀ (topic : String) (v : JsValue), ∃ c,
        normalizeCourse (.obj [("totalLessons", v)]) topic = .ok c ∧
        c.totalLessons = jsToNumber (safe v (.num (.int 15)))) ∧
    (∀ (data : JsValue) (topic : String) (c : Course),
        normalizeCourse data topic = .ok c →
        c.totalLessons = jsToNumber (safe (fieldVal data "totalLessons") (.num (.int 15)))) ∧
    (∀ (data : JsValue) (topic : String) (c : Course) (i : Nat) (e : JsValue),
        normalizeCourse data topic = .ok c →
        (fieldElems data "days").get? i = some e →
        ∃ d : DaySpec, c.days.get? i = some d ∧
          d.day = jsToNumber (safe (fieldVal e "day") (.num (.int ((i : Int) + 1))))) ∧
    jsToNumber (.str "abc") = .nan ∧ jsToNumber (.obj []) = .nan := by
  refine ⟨?_, ?_, ?_, rfl, rfl⟩
  · intro topic v
    exact ⟨_, normalizeCourse_eq_ok rfl rfl rfl, rfl⟩
  · intro data topic c h
    obtain ⟨-, nD, nR, -, -, hc⟩ := normalizeCourse_inv h
    subst hc
    rfl
  · intro data topic c i e h he
    exact day_of_normalized h he

/-- Claim C8 witness: the coercion theorem applied at a concrete
non-numeric `totalLessons` candidate, whose output field is `NaN`. -/
theorem C8_numeric_coercion_total_witness :
    Course.totalLessons
      { title := "Master X", duration := "5 Days",
        summary := "A comprehensive mini-course designed to take you from beginner to confident in X.",
        totalLessons := .nan, estimatedTime := "2-3 hours/day",
        days := dummyCourse.days, resources := dummyCourse.resources } =
      jsToNumber (safe (fieldVal (.obj [("totalLessons", .str "abc")]) "totalLessons")
        (.num (.int 15))) :=
  C8_numeric_coercion_total.2.1 (.obj [("totalLessons", .str "abc")]) "X" _ rfl

lemma map_str_jsToString : ∀ (l : List String), (l.map JsValue.str).map jsToString = l := by
  intro l
  induction l with
  | nil => rfl
  | cons s rest ih => simp only [List.map]; rw [ih]; rfl

lemma normDay_dayToJs (i : Nat) (d : DaySpec) : normDay i (dayToJs d) = .ok d := by
  have h : isNullish (dayToJs d) = false := rfl
  rw [normDay_eq i h]
  cases d with
  | mk dy ti go co ex =>
      refine congrArg Except.ok ?_
      simp only [DaySpec.mk.injEq]
      exact ⟨rfl, rfl, map_str_jsToString go, map_str_jsToString co, map_str_jsToString ex⟩

lemma normResource_resourceToJs (r : ResourceSpec)
    (ht : (["video", "article", "pdf"] : List String).contains r.type = true) :
    normResource (resourceToJs r) = .ok r := by
  have h : isNullish (resourceToJs r) = false := rfl
  rw [normResource_eq h]
  cases r with
  | mk ti ty u de =>
      refine congrArg Except.ok ?_
      simp only [ResourceSpec.mk.injEq]
      refine ⟨rfl, ?_, rfl, rfl⟩
      show (if (["video", "article", "pdf"] : List String).contains ty then ty else "article") = ty
      rw [if_pos ht]

lemma normDaysGo_dayToJs : ∀ (ds : List DaySpec) (i : Nat),
    normDaysGo i (ds.map dayToJs) = .ok ds := by
  intro ds
  induction ds with
  | nil => intro i; rfl
  | cons d rest ih =>
      intro i
      simp only [List.map, normDaysGo]
      rw [normDay_dayToJs i d, exceptBind_ok, ih (i + 1), exceptBind_ok]
      rfl

lemma normResourcesGo_resourceToJs : ∀ (rs : List ResourceSpec),
    (∀ r ∈ rs, (["video", "article", "pdf"] : List String).contains r.type = true) →
    normResourcesGo (rs.map resourceToJs) = .ok rs := by
  intro rs
  induction rs with
  | nil => intro _; rfl
  | cons r rest ih =>
      intro h
      simp only [List.map, normResourcesGo]
      rw [normResource_resourceToJs r (h r (List.mem_cons_self _ _)), exceptBind_ok,
          ih (fun x hx => h x (List.mem_cons_of_mem _ hx)), exceptBind_ok]
      rfl

/-- Claim C3 (confirmed): on well-formed Course-shaped input — the JSON
image of a well-typed `Course` — `normalizeCourse` is the identity: the
output converts back to exactly the input. -/
theorem C3_normalize_roundtrip :
    ∀ (data : JsValue) (topic : String), WellFormedCourseInput data →
      ∃ c : Course, normalizeCourse data topic = .ok c ∧ courseToJs c = data := by
  rintro data topic ⟨c0, rfl, hv⟩
  refine ⟨c0, ?_, rfl⟩
  simp only [courseWellTyped, Bool.and_eq_true] at hv
  obtain ⟨⟨⟨⟨hTL, hDne⟩, hDall⟩, hRne⟩, hRall⟩ := hv
  have hD : normDaysGo 0 (fieldElems (courseToJs c0) "days") = .ok c0.days := by
    show normDaysGo 0 (c0.days.map dayToJs) = .ok c0.days
    exact normDaysGo_dayToJs c0.days 0
  have hR : normResourcesGo (fieldElems (courseToJs c0) "resources") = .ok c0.resources := by
    show normResourcesGo (c0.resources.map resourceToJs) = .ok c0.resources
    exact normResourcesGo_resourceToJs c0.resources (List.all_eq_true.mp hRall)
  have hnn : isNullish (courseToJs c0) = false := rfl
  rw [normalizeCourse_eq_ok hnn hD hR]
  refine congrArg Except.ok ?_
  have hDlen : ¬ c0.days.length = 0 := by
    cases hds : c0.days with
    | nil => rw [hds] at hDne; simp at hDne
    | cons a l => simp
  have hRlen : ¬ c0.resources.length = 0 := by
    cases hrs : c0.resources with
    | nil => rw [hrs] at hRne; simp at hRne
    | cons a l => simp
  cases c0 with
  | mk ti du su tl et ds rs =>
      simp only [Course.mk.injEq]
      exact ⟨rfl, rfl, rfl, rfl, rfl, if_neg hDlen, if_neg hRlen⟩

/-- Claim C3 witness: the round-trip theorem applied at a concrete
well-formed one-day, one-resource course input. -/
theorem C3_normalize_roundtrip_witness :
    ∃ c : Course,
      normalizeCourse (courseToJs
        { title := "T0", duration := "1 Day", summary := "S",
          totalLessons := .int 1, estimatedTime := "1 hour",
          days := [⟨.int 1, "Day 1", ["g"], ["k"], ["e"]⟩],
          resources := [⟨"R", "video", "https://youtube.com", ""⟩] }) "X" = .ok c ∧
      courseToJs c = courseToJs
        { title := "T0", duration := "1 Day", summary := "S",
          totalLessons := .int 1, estimatedTime := "1 hour",
          days := [⟨.int 1, "Day 1", ["g"], ["k"], ["e"]⟩],
          resources := [⟨"R", "video", "https://youtube.com", ""⟩] } :=
  C3_normalize_roundtrip _ "X" ⟨_, rfl, by decide⟩

lemma head?_dropWhile_not (p : Char → Bool) :
    ∀ (l : List Char) (c : Char), (l.dropWhile p).head? = some c → p c = false := by
  intro l
  induction l with
  | nil => intro c h; simp [List.dropWhile] at h
  | cons a rest ih =>
      intro c h
      rw [List.dropWhile_cons] at h
      by_cases hp : p a = true
      · rw [if_pos hp] at h
        exact ih c h
      · rw [if_neg hp] at h
        simp at h
        subst h
        simpa using hp

lemma dropWhile_eq_self_of_head (p : Char → Bool) (l : List Char)
    (h : ∀ c, l.head? = some c → p c = false) : l.dropWhile p = l := by
  cases l with
  | nil => rfl
  | cons a rest =>
      rw [List.dropWhile_cons, if_neg]
      simp [h a rfl]

lemma dropWhile_dropWhile (p : Char → Bool) (l : List Char) :
    (l.dropWhile p).dropWhile p = l.dropWhile p :=
  dropWhile_eq_self_of_head p _ (head?_dropWhile_not p l)

lemma dropTrailingWs_prefix (l : List Char) : ∃ t, l = dropTrailingWs l ++ t := by
  obtain ⟨t, ht⟩ := List.dropWhile_suffix (l := l.reverse) isJsWs
  refine ⟨t.reverse, ?_⟩
  calc l = l.reverse.reverse := (List.reverse_reverse l).symm
    _ = (t ++ l.reverse.dropWhile isJsWs).reverse := by rw [ht]
    _ = dropTrailingWs l ++ t.reverse := by rw [List.reverse_append]; rfl

lemma head?_dropTrailingWs (l : List Char) (c : Char)
    (h : (dropTrailingWs l).head? = some c) : l.head? = some c := by
  obtain ⟨t, ht⟩ := dropTrailingWs_prefix l
  rw [ht]
  cases hdt : dropTrailingWs l with
  | nil => rw [hdt] at h; simp at h
  | cons a r =>
      rw [hdt] at h
      simp at h
      simp [← h]

lemma jsTrimL_idem (l : List Char) : jsTrimL (jsTrimL l) = jsTrimL l := by
  unfold jsTrimL
  have h1 : (dropTrailingWs (l.dropWhile isJsWs)).dropWhile isJsWs =
      dropTrailingWs (l.dropWhile isJsWs) := by
    apply dropWhile_eq_self_of_head
    intro c hc
    exact head?_dropWhile_not isJsWs l c (head?_dropTrailingWs _ c hc)
  rw [h1]
  unfold dropTrailingWs
  rw [List.reverse_reverse, dropWhile_dropWhile]

lemma dropWhile_append_cons (p : Char → Bool) {c : Char} (hc : p c = false) :
    ∀ (A B : List Char), (A ++ c :: B).dropWhile p = A.dropWhile p ++ c :: B := by
  intro A
  induction A with
  | nil =>
      intro B
      simp only [List.nil_append]
      rw [List.dropWhile_cons, if_neg (by simp [hc]), List.dropWhile_nil, List.nil_append]
  | cons a r ih =>
      intro B
      rw [List.cons_append, List.dropWhile_cons, List.dropWhile_cons]
      by_cases hp : p a = true
      · rw [if_pos hp, if_pos hp, ih]
      · rw [if_neg hp, if_neg hp, List.cons_append]

lemma splitAtTicks_append {A : List Char} (hA : ∀ x ∈ A, x ≠ '\x60') :
    ∀ (B : List Char),
      splitAtTicks (A ++ '\x60' :: '\x60' :: '\x60' :: B) = some (A, B) := by
  induction A with
  | nil =>
      intro B
      simp only [List.nil_append]
      unfold splitAtTicks
      rw [if_pos (by rfl)]
      rfl
  | cons a r ih =>
      intro B
      have hns : ¬ (listStartsWith tripleTick (a :: (r ++ '\x60' :: '\x60' :: '\x60' :: B)) = true) := by
        intro hsw
        have ha := hA a (List.mem_cons_self _ _)
        simp [listStartsWith, tripleTick] at hsw
        exact ha hsw.1.symm
      rw [List.cons_append]
      unfold splitAtTicks
      rw [if_neg hns, ih (fun x hx => hA x (List.mem_cons_of_mem _ hx)) B]

lemma listStartsWith_tick_false {c : Char} (hc : c ≠ '\x60') (l : List Char) :
    listStartsWith tripleTick (c :: l) = false := by
  simp [listStartsWith, tripleTick]
  intro he
  exact absurd he.symm hc

lemma matchJsonFenceAt_none {l : List Char} (h : listStartsWith tripleTick l = false) :
    matchJsonFenceAt l = none := by
  unfold matchJsonFenceAt
  rw [if_neg (by simp [h])]

lemma matchPlainFenceAt_none {l : List Char} (h : listStartsWith tripleTick l = false) :
    matchPlainFenceAt l = none := by
  unfold matchPlainFenceAt
  rw [if_neg (by simp [h])]

lemma hasTripleTick_cons {c : Char} {rest : List Char} (h : hasTripleTick (c :: rest) = false) :
    listStartsWith tripleTick (c :: rest) = false ∧ hasTripleTick rest = false := by
  rw [hasTripleTick] at h
  constructor <;> simp_all

lemma findJsonFence_none : ∀ {l : List Char}, hasTripleTick l = false → findJsonFence l = none := by
  intro l
  induction l with
  | nil => intro _; rfl
  | cons c rest ih =>
      intro h
      obtain ⟨h1, h2⟩ := hasTripleTick_cons h
      unfold findJsonFence
      rw [matchJsonFenceAt_none h1]
      exact ih h2

lemma findPlainFence_none : ∀ {l : List Char}, hasTripleTick l = false → findPlainFence l = none := by
  intro l
  induction l with
  | nil => intro _; rfl
  | cons c rest ih =>
      intro h
      obtain ⟨h1, h2⟩ := hasTripleTick_cons h
      unfold findPlainFence
      rw [matchPlainFenceAt_none h1]
      exact ih h2

lemma fenceInner_eval (inner post : List Char) (hinner : ∀ x ∈ inner, x ≠ '\x60') :
    fenceInner (inner ++ '\x60' :: '\x60' :: '\x60' :: post) = some (jsTrimL inner) := by
  unfold fenceInner
  rw [dropWhile_append_cons isJsWs (by rfl) inner ('\x60' :: '\x60' :: post)]
  rw [splitAtTicks_append (fun x hx => hinner x ((List.dropWhile_sublist isJsWs).subset hx)) post]
  rfl

lemma findJsonFence_fence (pre inner post : List Char)
    (hpre : ∀ x ∈ pre, x ≠ '\x60') (hinner : ∀ x ∈ inner, x ≠ '\x60') :
    findJsonFence (pre ++ '\x60' :: '\x60' :: '\x60' :: 'j' :: 's' :: 'o' :: 'n' ::
        (inner ++ '\x60' :: '\x60' :: '\x60' :: post)) = some (jsTrimL inner) := by
  induction pre with
  | nil =>
      simp only [List.nil_append]
      unfold findJsonFence
      have hm : matchJsonFenceAt ('\x60' :: '\x60' :: '\x60' :: 'j' :: 's' :: 'o' :: 'n' ::
          (inner ++ '\x60' :: '\x60' :: '\x60' :: post)) =
          fenceInner (inner ++ '\x60' :: '\x60' :: '\x60' :: post) := rfl
      rw [hm, fenceInner_eval inner post hinner]
  | cons a r ih =>
      rw [List.cons_append]
      unfold findJsonFence
      rw [matchJsonFenceAt_none (listStartsWith_tick_false (hpre a (List.mem_cons_self _ _)) _)]
      exact ih (fun x hx => hpre x (List.mem_cons_of_mem _ hx))

/-- Claim C4 (confirmed): `extractJson` is a total pure text transform —
with no fence present it returns the trimmed original text; a
`json`-tagged fenced block yields its (trimmed) inner content even when
preceded by arbitrary backtick-free text; the tagged fence takes
precedence over an earlier untagged fence; and the spec's two examples
hold. -/
theorem C4_extractJson :
    (∀ text : String, hasTripleTick text.data = false →
        extractJson text = String.mk (jsTrimL text.data)) ∧
    (∀ pre inner post : List Char,
        (∀ x ∈ pre, x ≠ '\x60') → (∀ x ∈ inner, x ≠ '\x60') →
        extractJson (String.mk (pre ++ '\x60' :: '\x60' :: '\x60' :: 'j' :: 's' :: 'o' :: 'n' ::
            (inner ++ '\x60' :: '\x60' :: '\x60' :: post))) = String.mk (jsTrimL inner)) ∧
    extractJson "\x60\x60\x60json\n\x7b\"a\":1\x7d\n\x60\x60\x60" = "\x7b\"a\":1\x7d" ∧
    extractJson "\x7b\"a\":1\x7d" = "\x7b\"a\":1\x7d" ∧
    extractJson "\x60\x60\x60 a \x60\x60\x60\n\x60\x60\x60json b \x60\x60\x60" = "b" := by
  refine ⟨?_, ?_, rfl, rfl, rfl⟩
  · intro text h
    unfold extractJson
    rw [findJsonFence_none h, findPlainFence_none h]
  · intro pre inner post hpre hinner
    unfold extractJson
    have hdata : (String.mk (pre ++ '\x60' :: '\x60' :: '\x60' :: 'j' :: 's' :: 'o' :: 'n' ::
        (inner ++ '\x60' :: '\x60' :: '\x60' :: post))).data =
        pre ++ '\x60' :: '\x60' :: '\x60' :: 'j' :: 's' :: 'o' :: 'n' ::
          (inner ++ '\x60' :: '\x60' :: '\x60' :: post) := rfl
    rw [hdata, findJsonFence_fence pre inner post hpre hinner]
    show String.mk (jsTrimL (jsTrimL inner)) = String.mk (jsTrimL inner)
    rw [jsTrimL_idem]

/-- Claim C4 witness: the no-fence and fenced universal parts applied at
concrete inputs. -/
theorem C4_extractJson_witness :
    extractJson "hello" = String.mk (jsTrimL "hello".data) ∧
    extractJson (String.mk ([] ++ '\x60' :: '\x60' :: '\x60' :: 'j' :: 's' :: 'o' :: 'n' ::
        (['x'] ++ '\x60' :: '\x60' :: '\x60' :: []))) = String.mk (jsTrimL ['x']) :=
  ⟨C4_extractJson.1 "hello" (by decide),
   C4_extractJson.2.1 [] ['x'] [] (by decide) (by decide)⟩

/-- Claim C9 (confirmed): a request whose body has no `topic`, or whose
`topic` is not a string, receives the 400 error response with the error
message, and the outcome is the same whatever the model would have
returned — the model is never consulted. -/
theorem C9_invalid_topic_400 :
    (∀ (fields : List (String × JsValue)) (m : Except Unit String),
        isStringV (lookupField fields "topic") = false →
        postGenerateCourse (.obj fields) m = .ok (.badRequest "Topic is required (string)")) ∧
    (∀ (fields : List (String × JsValue)) (m₁ m₂ : Except Unit String),
        isStringV (lookupField fields "topic") = false →
        postGenerateCourse (.obj fields) m₁ = postGenerateCourse (.obj fields) m₂) := by
  have hmain : ∀ (fields : List (String × JsValue)) (m : Except Unit String),
      isStringV (lookupField fields "topic") = false →
      postGenerateCourse (.obj fields) m = .ok (.badRequest "Topic is required (string)") := by
    intro fields m h
    simp only [postGenerateCourse, getField]
    rw [h]
    simp
  refine ⟨hmain, ?_⟩
  intro fields m₁ m₂ h
  rw [hmain fields m₁ h, hmain fields m₂ h]

/-- Claim C9 witness: the 400 theorem applied at the empty body with a
failing model. -/
theorem C9_invalid_topic_400_witness :
    postGenerateCourse (.obj []) (.error ()) = .ok (.badRequest "Topic is required (string)") :=
  C9_invalid_topic_400.1 [] (.error ()) (by decide)

/-- Claim C10 (confirmed): the handler's validity check rejects every
falsy topic value, so the empty-string topic — a string, hence outside
the spec's stated 400 condition — also receives the 400 response, for
any model outcome. -/
theorem C10_empty_topic_400 :
    (∀ m : Except Unit String,
        postGenerateCourse (.obj [("topic", .str "")]) m =
          .ok (.badRequest "Topic is required (string)")) ∧
    (∀ (v : JsValue) (m : Except Unit String), jsTruthy v = false →
        postGenerateCourse (.obj [("topic", v)]) m =
          .ok (.badRequest "Topic is required (string)")) := by
  have hmain : ∀ (v : JsValue) (m : Except Unit String), jsTruthy v = false →
      postGenerateCourse (.obj [("topic", v)]) m =
        .ok (.badRequest "Topic is required (string)") := by
    intro v m h
    simp only [postGenerateCourse, getField]
    have hl : lookupField [("topic", v)] "topic" = v := rfl
    rw [hl, h]
    simp
  exact ⟨fun m => hmain (.str "") m rfl, hmain⟩

/-- Claim C10 witness: the falsy-topic theorem applied at the
empty-string topic with a failing model. -/
theorem C10_empty_topic_400_witness :
    postGenerateCourse (.obj [("topic", .str "")]) (.error ()) =
      .ok (.badRequest "Topic is required (string)") :=
  C10_empty_topic_400.2 (.str "") (.error ()) (by decide)

lemma stringDataEq {a b : String} (h : a.data = b.data) : a = b := by
  cases a with
  | mk da =>
      cases b with
      | mk db => exact congrArg String.mk h

lemma postGenerateCourse_model_error (topic : String) (h : topic ≠ "") :
    postGenerateCourse (.obj [("topic", .str topic)]) (.error ()) = fallbackBranch topic := by
  simp only [postGenerateCourse, getField]
  have hl : lookupField [("topic", .str topic)] "topic" = .str topic := rfl
  rw [hl]
  have ht : jsTruthy (.str topic) = true := by simp [jsTruthy, h]
  rw [ht]
  simp [generateCourseFromGemini, isStringV]

set_option maxRecDepth 12000

lemma fallbackCourseJson_Rust :
    fallbackCourseJson "Rust" = .ok (courseToJs (dummyCourseFor "Rust")) := by
  have hb : listEqTR
      (replaceAll (String.mk (jsonStringify (courseToJs dummyCourse)))
        "\x7b\x7bTOPIC\x7d\x7d" "Rust").data
      (String.data "\x7b\"title\":\"Master Rust\",\"duration\":\"5 Days\",\"summary\":\"A comprehensive mini-course designed to take you from beginner to confident in Rust. This structured learning path combines theory with practical exercises.\",\"totalLessons\":15,\"estimatedTime\":\"2-3 hours/day\",\"days\":[\x7b\"day\":1,\"title\":\"Foundation & Setup\",\"goals\":[\"Understand the basics\",\"Set up environment\",\"First exercise\"],\"concepts\":[\"Core terminology\",\"Why it matters\",\"Basic principles\"],\"exercises\":[\"Install tools\",\"Terminology quiz\",\"Hello world task\"]\x7d,\x7b\"day\":2,\"title\":\"Building Fundamentals\",\"goals\":[\"Master essentials\",\"Practice techniques\",\"Build confidence\"],\"concepts\":[\"Key tools\",\"Best practices\",\"Common patterns\"],\"exercises\":[\"Guided tasks\",\"CLI practice\",\"Mini project\"]\x7d,\x7b\"day\":3,\"title\":\"Intermediate Concepts\",\"goals\":[\"Explore advanced features\",\"Connect concepts\",\"Apply skills\"],\"concepts\":[\"Advanced methods\",\"Integration\",\"Optimization\"],\"exercises\":[\"Problem set\",\"Integration task\",\"Perf tuning\"]\x7d,\x7b\"day\":4,\"title\":\"Practical Application\",\"goals\":[\"Build a full project\",\"Test & validate\",\"Debug issues\"],\"concepts\":[\"Project planning\",\"Testing\",\"Debugging\"],\"exercises\":[\"Build project\",\"Write tests\",\"Fix bugs\"]\x7d,\x7b\"day\":5,\"title\":\"Mastery & Next Steps\",\"goals\":[\"Solidify knowledge\",\"Explore advanced topics\",\"Roadmap\"],\"concepts\":[\"Advanced architectures\",\"Industry practices\",\"Trends\"],\"exercises\":[\"Capstone\",\"Peer review\",\"Learning plan\"]\x7d],\"resources\":[\x7b\"title\":\"Complete Guide - YouTube\",\"type\":\"video\",\"url\":\"https://youtube.com\",\"description\":\"Comprehensive video series\"\x7d,\x7b\"title\":\"Ultimate Handbook\",\"type\":\"pdf\",\"url\":\"https://example.com\",\"description\":\"Step-by-step reference guide\"\x7d,\x7b\"title\":\"Community Blog\",\"type\":\"article\",\"url\":\"https://medium.com\",\"description\":\"Insights, tutorials, and discussions\"\x7d]\x7d") = true := rfl
  have h1 := stringDataEq (listEqTR_eq hb)
  unfold fallbackCourseJson
  rw [h1]
  show JSONParse "\x7b\"title\":\"Master Rust\",\"duration\":\"5 Days\",\"summary\":\"A comprehensive mini-course designed to take you from beginner to confident in Rust. This structured learning path combines theory with practical exercises.\",\"totalLessons\":15,\"estimatedTime\":\"2-3 hours/day\",\"days\":[\x7b\"day\":1,\"title\":\"Foundation & Setup\",\"goals\":[\"Understand the basics\",\"Set up environment\",\"First exercise\"],\"concepts\":[\"Core terminology\",\"Why it matters\",\"Basic principles\"],\"exercises\":[\"Install tools\",\"Terminology quiz\",\"Hello world task\"]\x7d,\x7b\"day\":2,\"title\":\"Building Fundamentals\",\"goals\":[\"Master essentials\",\"Practice techniques\",\"Build confidence\"],\"concepts\":[\"Key tools\",\"Best practices\",\"Common patterns\"],\"exercises\":[\"Guided tasks\",\"CLI practice\",\"Mini project\"]\x7d,\x7b\"day\":3,\"title\":\"Intermediate Concepts\",\"goals\":[\"Explore advanced features\",\"Connect concepts\",\"Apply skills\"],\"concepts\":[\"Advanced methods\",\"Integration\",\"Optimization\"],\"exercises\":[\"Problem set\",\"Integration task\",\"Perf tuning\"]\x7d,\x7b\"day\":4,\"title\":\"Practical Application\",\"goals\":[\"Build a full project\",\"Test & validate\",\"Debug issues\"],\"concepts\":[\"Project planning\",\"Testing\",\"Debugging\"],\"exercises\":[\"Build project\",\"Write tests\",\"Fix bugs\"]\x7d,\x7b\"day\":5,\"title\":\"Mastery & Next Steps\",\"goals\":[\"Solidify knowledge\",\"Explore advanced topics\",\"Roadmap\"],\"concepts\":[\"Advanced architectures\",\"Industry practices\",\"Trends\"],\"exercises\":[\"Capstone\",\"Peer review\",\"Learning plan\"]\x7d],\"resources\":[\x7b\"title\":\"Complete Guide - YouTube\",\"type\":\"video\",\"url\":\"https://youtube.com\",\"description\":\"Comprehensive video series\"\x7d,\x7b\"title\":\"Ultimate Handbook\",\"type\":\"pdf\",\"url\":\"https://example.com\",\"description\":\"Step-by-step reference guide\"\x7d,\x7b\"title\":\"Community Blog\",\"type\":\"article\",\"url\":\"https://medium.com\",\"description\":\"Insights, tutorials, and discussions\"\x7d]\x7d" = .ok (courseToJs (dummyCourseFor "Rust"))
  rfl

lemma postGenerateCourse_quote_throws :
    postGenerateCourse (.obj [("topic", .str "\"")]) (.error ()) = .error () := rfl

lemma postGenerateCourse_rust_fallback :
    postGenerateCourse (.obj [("topic", .str "Rust")]) (.error ()) =
      .ok (.okCourse (dummyCourseFor "Rust")) := by
  rw [postGenerateCourse_model_error "Rust" (by decide)]
  unfold fallbackBranch
  rw [fallbackCourseJson_Rust]
  rfl

/-- Claim C2 (code bug, evaluated at the failing input): with the model
call failing, the topic consisting of one double quote passes input
validation but makes the catch block's own
`JSON.parse(JSON.stringify(dummyCourse).replaceAll(...))` throw a
`SyntaxError`, which escapes the handler — no response is produced —
whereas the topic "Rust" gets exactly the normalized substituted fallback
course. -/
theorem C2_fallback_quote_crash :
    postGenerateCourse (.obj [("topic", .str "\"")]) (.error ()) = .error () ∧
    postGenerateCourse (.obj [("topic", .str "Rust")]) (.error ()) =
      .ok (.okCourse (dummyCourseFor "Rust")) :=
  ⟨postGenerateCourse_quote_throws, postGenerateCourse_rust_fallback⟩
